import Mathlib

/-!
Verification of the expense-ledger service in `src/main.py`.

The service is a set of five SQLite-backed tool handlers
(`add_expense`, `list_expenses`, `summarize_expenses_by_category`,
`delete_expense`, `update_expense`) plus a file-backed categories
resource (`get_categories`).  We embed the `expenses` table as a list
of records together with the AUTOINCREMENT counter, each SQL statement
as a pure function on that state, and each handler's `try/except`
boundary as a function that takes an optional storage-layer exception
(modelled by its Python `str(e)` text) and returns the structured
result dictionary the Python code builds.

SQLite compares TEXT with memcmp, i.e. lexicographically on the
encoded bytes; for the zero-padded ASCII dates used here this is
the lexicographic order on characters, modelled by `charListLt`.
`REAL` amounts are modelled as exact rationals.
-/

namespace ExpenseTracker

/-- Lexicographic strict comparison of character lists: the order SQLite's
memcmp induces on the stored (ASCII) date strings. -/
def charListLt : List Char → List Char → Bool
  | [], [] => false
  | [], _ :: _ => true
  | _ :: _, [] => false
  | a :: as, b :: bs => if a < b then true else if b < a then false else charListLt as bs

/-- Strict lexicographic order on strings (SQLite `<` on TEXT values). -/
def strLt (a b : String) : Bool := charListLt a.data b.data

/-- Lexicographic `≤` on strings (SQLite `<=` on TEXT values, as used by
`BETWEEN`). -/
def strLe (a b : String) : Bool := !(strLt b a)

theorem charListLt_cons (a b : Char) (as bs : List Char) :
    charListLt (a :: as) (b :: bs) =
      if a < b then true else if b < a then false else charListLt as bs := rfl

theorem charListLt_irrefl (l : List Char) : charListLt l l = false := by
  induction l with
  | nil => rfl
  | cons a as ih =>
    rw [charListLt_cons, if_neg (lt_irrefl a), if_neg (lt_irrefl a)]
    exact ih

theorem charListLt_asymm {l₁ l₂ : List Char} (h : charListLt l₁ l₂ = true) :
    charListLt l₂ l₁ = false := by
  induction l₁ generalizing l₂ with
  | nil =>
    cases l₂ with
    | nil => exact absurd h (by simp [charListLt])
    | cons b bs => rfl
  | cons a as ih =>
    cases l₂ with
    | nil => exact absurd h (by simp [charListLt])
    | cons b bs =>
      rcases lt_trichotomy a b with hab | hab | hab
      · rw [charListLt_cons, if_neg (lt_asymm hab), if_pos hab]
      · subst hab
        rw [charListLt_cons, if_neg (lt_irrefl a), if_neg (lt_irrefl a)] at h ⊢
        exact ih h
      · rw [charListLt_cons, if_neg (lt_asymm hab), if_pos hab] at h
        exact absurd h (by simp)

theorem charListLt_trans {l₁ l₂ l₃ : List Char} (h₁ : charListLt l₁ l₂ = true)
    (h₂ : charListLt l₂ l₃ = true) : charListLt l₁ l₃ = true := by
  induction l₁ generalizing l₂ l₃ with
  | nil =>
    cases l₃ with
    | nil =>
      cases l₂ with
      | nil => exact h₁
      | cons b bs => exact absurd h₂ (by simp [charListLt])
    | cons c cs => rfl
  | cons a as ih =>
    cases l₂ with
    | nil => exact absurd h₁ (by simp [charListLt])
    | cons b bs =>
      cases l₃ with
      | nil => exact absurd h₂ (by simp [charListLt])
      | cons c cs =>
        rcases lt_trichotomy a b with hab | hab | hab
        · rcases lt_trichotomy b c with hbc | hbc | hbc
          · rw [charListLt_cons, if_pos (lt_trans hab hbc)]
          · subst hbc
            rw [charListLt_cons, if_pos hab]
          · rw [charListLt_cons, if_neg (lt_asymm hbc), if_pos hbc] at h₂
            exact absurd h₂ (by simp)
        · subst hab
          rcases lt_trichotomy a c with hac | hac | hac
          · rw [charListLt_cons, if_pos hac]
          · subst hac
            rw [charListLt_cons, if_neg (lt_irrefl a), if_neg (lt_irrefl a)] at h₁ h₂ ⊢
            exact ih h₁ h₂
          · rw [charListLt_cons, if_neg (lt_asymm hac), if_pos hac] at h₂
            exact absurd h₂ (by simp)
        · rw [charListLt_cons, if_neg (lt_asymm hab), if_pos hab] at h₁
          exact absurd h₁ (by simp)

theorem charListLt_antisymm {l₁ l₂ : List Char} (h₁ : charListLt l₁ l₂ = false)
    (h₂ : charListLt l₂ l₁ = false) : l₁ = l₂ := by
  induction l₁ generalizing l₂ with
  | nil =>
    cases l₂ with
    | nil => rfl
    | cons b bs => exact absurd h₁ (by simp [charListLt])
  | cons a as ih =>
    cases l₂ with
    | nil => exact absurd h₂ (by simp [charListLt])
    | cons b bs =>
      rcases lt_trichotomy a b with hab | hab | hab
      · rw [charListLt_cons, if_pos hab] at h₁
        exact absurd h₁ (by simp)
      · subst hab
        rw [charListLt_cons, if_neg (lt_irrefl a), if_neg (lt_irrefl a)] at h₁ h₂
        rw [ih h₁ h₂]
      · rw [charListLt_cons, if_pos hab] at h₂
        exact absurd h₂ (by simp)

theorem strLt_irrefl (s : String) : strLt s s = false := charListLt_irrefl s.data

theorem strLt_asymm {a b : String} (h : strLt a b = true) : strLt b a = false :=
  charListLt_asymm h

theorem strLt_trans {a b c : String} (h₁ : strLt a b = true) (h₂ : strLt b c = true) :
    strLt a c = true := charListLt_trans h₁ h₂

theorem strLt_antisymm {a b : String} (h₁ : strLt a b = false) (h₂ : strLt b a = false) :
    a = b := by
  cases a with | mk da =>
  cases b with | mk db =>
  exact congrArg String.mk (charListLt_antisymm h₁ h₂)

theorem strLe_refl (s : String) : strLe s s = true := by
  simp [strLe, strLt_irrefl]

theorem strLe_iff_not_strLt {a b : String} : strLe a b = true ↔ strLt b a = false := by
  simp [strLe]

theorem strLe_trans {a b c : String} (h₁ : strLe a b = true) (h₂ : strLe b c = true) :
    strLe a c = true := by
  rw [strLe_iff_not_strLt] at h₁ h₂ ⊢
  cases hca : strLt c a with
  | false => rfl
  | true =>
    cases hbc : strLt b c with
    | false =>
      have hbc' : b = c := strLt_antisymm hbc h₂
      rw [hbc'] at h₁
      rw [h₁] at hca
      exact absurd hca (by simp)
    | true =>
      have hba : strLt b a = true := strLt_trans hbc hca
      rw [h₁] at hba
      exact absurd hba (by simp)

theorem strLe_of_strLt {a b : String} (h : strLt a b = true) : strLe a b = true := by
  rw [strLe_iff_not_strLt]
  exact strLt_asymm h

theorem strLe_total (a b : String) : strLe a b = true ∨ strLe b a = true := by
  cases h : strLt b a with
  | false => exact Or.inl (strLe_iff_not_strLt.mpr h)
  | true => exact Or.inr (strLe_of_strLt h)

theorem strLe_antisymm {a b : String} (h₁ : strLe a b = true) (h₂ : strLe b a = true) :
    a = b :=
  strLt_antisymm (strLe_iff_not_strLt.mp h₂) (strLe_iff_not_strLt.mp h₁)

/-! ## Data model

One row of the `expenses` table created by `init_db`:
`id INTEGER PRIMARY KEY AUTOINCREMENT, date TEXT NOT NULL, amount REAL
NOT NULL, category TEXT NOT NULL, subcategory TEXT DEFAULT '', note
TEXT DEFAULT ''`.  REAL amounts are modelled as exact rationals. -/

structure Expense where
  id : Nat
  date : String
  amount : Rat
  category : String
  subcategory : String
  note : String
deriving DecidableEq

/-- The persistent state of the store: the rows of the `expenses` table in
insertion order, together with the AUTOINCREMENT counter (`sqlite_sequence`),
which assigns the id of the next insert and never decreases — deleting a row
never makes its id reusable. -/
structure DB where
  nextId : Nat
  rows : List Expense
deriving DecidableEq

/-- The `WHERE date BETWEEN ? AND ?` predicate of `list_expenses` and
`summarize_expenses_by_category`: inclusive at both endpoints, comparing the
stored date strings lexicographically (SQLite memcmp on TEXT). -/
def inRange (s e : String) (r : Expense) : Bool := strLe s r.date && strLe r.date e

/-- The `ORDER BY date DESC, id DESC` sort key of `list_expenses`:
`a` comes no later than `b` iff `a`'s date is lexicographically greater,
or the dates are equal and `a`'s id is no smaller. -/
def listOrder (a b : Expense) : Prop :=
  strLt b.date a.date = true ∨ (a.date = b.date ∧ b.id ≤ a.id)

instance : DecidableRel listOrder := fun a b => by
  unfold listOrder
  infer_instance

instance : IsTotal Expense listOrder := by
  constructor
  intro a b
  cases hab : strLt b.date a.date with
  | true => exact Or.inl (Or.inl hab)
  | false =>
    cases hba : strLt a.date b.date with
    | true => exact Or.inr (Or.inl hba)
    | false =>
      have hd : a.date = b.date := strLt_antisymm hba hab
      rcases Nat.le_total b.id a.id with h | h
      · exact Or.inl (Or.inr ⟨hd, h⟩)
      · exact Or.inr (Or.inr ⟨hd.symm, h⟩)

instance : IsTrans Expense listOrder := by
  constructor
  intro a b c hab hbc
  rcases hab with hab | ⟨hdab, hiab⟩
  · rcases hbc with hbc | ⟨hdbc, _⟩
    · exact Or.inl (strLt_trans hbc hab)
    · exact Or.inl (hdbc ▸ hab)
  · rcases hbc with hbc | ⟨hdbc, hibc⟩
    · exact Or.inl (hdab ▸ hbc)
    · exact Or.inr ⟨hdab.trans hdbc, le_trans hibc hiab⟩

/-- The result rows of
`SELECT id, date, amount, category, subcategory, note FROM expenses
WHERE date BETWEEN ? AND ? ORDER BY date DESC, id DESC`
(the query of `list_expenses`): the rows in the inclusive date range,
sorted newest-first with ties broken by descending id. -/
def listExpensesQuery (s e : String) (rows : List Expense) : List Expense :=
  List.insertionSort listOrder (rows.filter (inRange s e))

/-- One output row of the `summarize_expenses_by_category` query:
`SELECT category, SUM(amount) as total_amount, COUNT(*) as count ...`. -/
structure CategorySummary where
  category : String
  total_amount : Rat
  count : Nat
deriving DecidableEq

/-- First-occurrence list of the distinct values of a list: the set of
categories `GROUP BY category` groups over. -/
def dedupFirst : List String → List String
  | [] => []
  | c :: cs => c :: (dedupFirst cs).filter (fun x => !(decide (x = c)))

/-- The summary row `GROUP BY category` produces for category `c`
from the filtered rows `f`: the sum of `amount` and the row count of the
rows of `f` in that category. -/
def groupFor (f : List Expense) (c : String) : CategorySummary :=
  { category := c
    total_amount := ((f.filter (fun r => decide (r.category = c))).map Expense.amount).sum
    count := (f.filter (fun r => decide (r.category = c))).length }

/-- The `ORDER BY total_amount DESC` sort key of
`summarize_expenses_by_category`. -/
def summaryOrder (a b : CategorySummary) : Prop := b.total_amount ≤ a.total_amount

instance : DecidableRel summaryOrder := fun a b => by
  unfold summaryOrder
  infer_instance

instance : IsTotal CategorySummary summaryOrder :=
  ⟨fun a b => (le_total b.total_amount a.total_amount).imp id id⟩

instance : IsTrans CategorySummary summaryOrder :=
  ⟨fun _ _ _ hab hbc => le_trans hbc hab⟩

/-- The rows the `summarize_expenses_by_category` statement aggregates over:
the Python handler runs one of two SQL statements, and with a non-empty
`category` argument the `WHERE` clause carries an extra `AND category = ?`
conjunct (Python truthiness: the empty string disables the filter). -/
def summarizeRows (s e cat : String) (rows : List Expense) : List Expense :=
  if cat = "" then rows.filter (inRange s e)
  else (rows.filter (inRange s e)).filter (fun r => decide (r.category = cat))

/-- The result rows of the `summarize_expenses_by_category` query: the
matching rows grouped by category, each group reporting the sum of `amount`
and the row count, ordered by descending total (`ORDER BY total_amount
DESC`). -/
def summarizeQuery (s e cat : String) (rows : List Expense) : List CategorySummary :=
  List.insertionSort summaryOrder
    ((dedupFirst ((summarizeRows s e cat rows).map Expense.category)).map
      (groupFor (summarizeRows s e cat rows)))

/-- The effect of `DELETE FROM expenses WHERE id = ?` (from `delete_expense`):
the number of rows removed (`cursor.rowcount`) and the remaining rows. -/
def deleteQuery (i : Nat) (rows : List Expense) : Nat × List Expense :=
  (rows.countP (fun r => decide (r.id = i)),
   rows.filter (fun r => !(decide (r.id = i))))

/-- The effect of
`UPDATE expenses SET date = ?, amount = ?, category = ?, subcategory = ?,
note = ? WHERE id = ?` (from `update_expense`): the number of rows updated
(`cursor.rowcount`) and the new rows.  The `SET` clause does not touch `id`. -/
def updateQuery (i : Nat) (d : String) (a : Rat) (c sc nt : String)
    (rows : List Expense) : Nat × List Expense :=
  (rows.countP (fun r => decide (r.id = i)),
   rows.map (fun r =>
     if r.id = i then
       { id := r.id, date := d, amount := a, category := c, subcategory := sc, note := nt }
     else r))

/-! ## Handler layer

Each Python tool wraps its database work in `try/except Exception as e`
and converts any raised storage-layer failure into a structured
`{"status": "error", "message": ...}` dictionary, so no exception escapes
the handler.  We model a run of a handler by an extra input
`exc : Option String`: `some e` means the storage layer raised an
exception whose `str(e)` is `e` (in which case no statement was committed,
so the table is unchanged), `none` means the statements succeeded. -/

/-- Python `"readonly" in str(e).lower()`: ASCII lowercasing. -/
def lowerStr (s : String) : String := String.mk (s.data.map Char.toLower)

/-- `hasPrefixCL pat l` holds when `pat` is a prefix of `l`. -/
def hasPrefixCL : List Char → List Char → Bool
  | [], _ => true
  | _ :: _, [] => false
  | p :: ps, c :: cs => decide (p = c) && hasPrefixCL ps cs

/-- `containsCL l pat` holds when `pat` occurs contiguously in `l`. -/
def containsCL : List Char → List Char → Bool
  | [], pat => pat.isEmpty
  | c :: cs, pat => hasPrefixCL pat (c :: cs) || containsCL cs pat

/-- Python's `in` test on strings. -/
def strContainsSub (s pat : String) : Bool := containsCL s.data pat.data

/-- The `add_expense` test `"readonly" in str(e).lower()` that detects a
read-only/permission storage failure. -/
def isReadonlyMsg (e : String) : Bool := strContainsSub (lowerStr e) "readonly"

/-- The dedicated message `add_expense` returns for a read-only failure. -/
def readonlyMessage : String := "Database is in read-only mode. Check file permissions."

/-- The generic except-branch message of `add_expense`:
`f"Database error: {str(e)}"`. -/
def addGenericMessage (e : String) : String := "Database error: " ++ e

/-- The message `add_expense` actually returns for an exception `e`:
the dedicated read-only message when `str(e)` contains "readonly",
otherwise the generic template. -/
def addErrorMessage (e : String) : String :=
  if isReadonlyMsg e then readonlyMessage else addGenericMessage e

/-- The single except-branch message of `list_expenses`:
`f"Error listing expenses: {str(e)}"`. -/
def listGenericMessage (e : String) : String := "Error listing expenses: " ++ e

/-- The single except-branch message of `summarize_expenses_by_category`:
`f"Error summarizing expenses: {str(e)}"`. -/
def summarizeGenericMessage (e : String) : String := "Error summarizing expenses: " ++ e

/-- The single except-branch message of `delete_expense`:
`f"Error deleting expense: {str(e)}"`. -/
def deleteGenericMessage (e : String) : String := "Error deleting expense: " ++ e

/-- The single except-branch message of `update_expense`:
`f"Error updating expense: {str(e)}"`. -/
def updateGenericMessage (e : String) : String := "Error updating expense: " ++ e

/-- Return value of `add_expense`: `{"status": "success", "id": ...,
"message": ...}` or `{"status": "error", "message": ...}`. -/
inductive AddResult where
  | success (id : Nat) (message : String)
  | error (message : String)
deriving DecidableEq

/-- Return value of `list_expenses`: the list of record dictionaries, or the
error dictionary. -/
inductive ListResult where
  | rows (items : List Expense)
  | error (message : String)
deriving DecidableEq

/-- Return value of `summarize_expenses_by_category`. -/
inductive SummarizeResult where
  | groups (items : List CategorySummary)
  | error (message : String)
deriving DecidableEq

/-- Return value of `delete_expense`: `{"status": "ok", "deleted": n}`
or the error dictionary. -/
inductive DeleteResult where
  | ok (deleted : Nat)
  | error (message : String)
deriving DecidableEq

/-- Return value of `update_expense`: `{"status": "ok", "updated": n}`
or the error dictionary. -/
inductive UpdateResult where
  | ok (updated : Nat)
  | error (message : String)
deriving DecidableEq

/-- `add_expense(date, amount, category, subcategory, note)`: INSERT one row
whose id is the AUTOINCREMENT value (`cursor.lastrowid`), commit, and return
`{"status": "success", "id": expense_id, "message": "Expense added
successfully"}`; on an exception return the error dictionary, with a
dedicated message when the failure is a read-only one. -/
def add_expense (db : DB) (exc : Option String) (date : String) (amount : Rat)
    (category subcategory note : String) : AddResult × DB :=
  match exc with
  | some e => (.error (addErrorMessage e), db)
  | none =>
    (.success db.nextId "Expense added successfully",
     ⟨db.nextId + 1, db.rows ++ [⟨db.nextId, date, amount, category, subcategory, note⟩]⟩)

/-- `list_expenses(start_date, end_date)`: run the SELECT of
`listExpensesQuery` and return the rows; on an exception return the error
dictionary. -/
def list_expenses (db : DB) (exc : Option String) (start_date end_date : String) :
    ListResult :=
  match exc with
  | some e => .error (listGenericMessage e)
  | none => .rows (listExpensesQuery start_date end_date db.rows)

/-- `summarize_expenses_by_category(start_date, end_date, category)`: run the
grouped SELECT of `summarizeQuery` and return the groups; on an exception
return the error dictionary. -/
def summarize_expenses_by_category (db : DB) (exc : Option String)
    (start_date end_date category : String) : SummarizeResult :=
  match exc with
  | some e => .error (summarizeGenericMessage e)
  | none => .groups (summarizeQuery start_date end_date category db.rows)

/-- `delete_expense(expense_id)`: run the DELETE of `deleteQuery`, commit, and
return `{"status": "ok", "deleted": cursor.rowcount}`; on an exception return
the error dictionary.  The AUTOINCREMENT counter is not reset by a DELETE. -/
def delete_expense (db : DB) (exc : Option String) (expense_id : Nat) :
    DeleteResult × DB :=
  match exc with
  | some e => (.error (deleteGenericMessage e), db)
  | none =>
    (.ok (deleteQuery expense_id db.rows).1, ⟨db.nextId, (deleteQuery expense_id db.rows).2⟩)

/-- `update_expense(expense_id, date, amount, category, subcategory, note)`:
run the UPDATE of `updateQuery`, commit, and return
`{"status": "ok", "updated": cursor.rowcount}`; on an exception return the
error dictionary. -/
def update_expense (db : DB) (exc : Option String) (expense_id : Nat) (date : String)
    (amount : Rat) (category subcategory note : String) : UpdateResult × DB :=
  match exc with
  | some e => (.error (updateGenericMessage e), db)
  | none =>
    (.ok (updateQuery expense_id date amount category subcategory note db.rows).1,
     ⟨db.nextId, (updateQuery expense_id date amount category subcategory note db.rows).2⟩)

/-! ## Categories resource

`get_categories` opens `categories.json` afresh on every request and returns
its text; if the file does not exist it returns
`json.dumps(default_categories, indent=2)` for the fixed built-in ten-name
list.  We model the current state of the backing file by an
`Option String` argument (`none` = `FileNotFoundError`), so a call is a pure
function of the file's state at request time — nothing is cached. -/

/-- The `default_categories["categories"]` list from the source. -/
def default_categories : List String :=
  ["Food & Dining", "Transportation", "Shopping", "Entertainment",
   "Bills & Utilities", "Healthcare", "Travel", "Education", "Business", "Other"]

/-- `json.dumps({"categories": names}, indent=2)`: the two-space-indented
JSON serialization Python produces for the default document. -/
def renderCategoriesJson (names : List String) : String :=
  match names with
  | [] => "\x7b\n  \"categories\": []\n\x7d"
  | _ =>
    "\x7b\n  \"categories\": [\n"
      ++ String.intercalate ",\n" (names.map (fun n => "    \"" ++ n ++ "\""))
      ++ "\n  ]\n\x7d"

/-- The body of `get_categories`: serve the current file content, falling back
to the serialized default document when the file is absent. -/
def get_categories (file : Option String) : String :=
  match file with
  | some content => content
  | none => renderCategoriesJson default_categories

/-! A small JSON reader for documents of the shape
`{"categories": [string, ...]}`, used to state that the fallback document is
well-formed JSON carrying the category names under the key "categories". -/

/-- Drop leading JSON whitespace. -/
def skipWs : List Char → List Char
  | [] => []
  | c :: cs => if c = ' ' || c = '\n' || c = '\t' || c = '\r' then skipWs cs else c :: cs

/-- Read the body of a JSON string literal up to its closing quote
(escape sequences are rejected). -/
def takeStringBody : List Char → List Char → Option (String × List Char)
  | [], _ => none
  | c :: cs, acc =>
    if c = '"' then some (String.mk acc.reverse, cs)
    else if c = '\\' then none
    else takeStringBody cs (c :: acc)

/-- Read a JSON string literal, including its opening quote. -/
def takeStringLit : List Char → Option (String × List Char)
  | [] => none
  | c :: cs => if c = '"' then takeStringBody cs [] else none

/-- Read the comma-separated string elements of a JSON array, consuming the
closing bracket.  `fuel` bounds the recursion depth. -/
def parseItems : Nat → List Char → Option (List String × List Char)
  | 0, _ => none
  | Nat.succ fuel, l =>
    match takeStringLit (skipWs l) with
    | none => none
    | some (s, rest) =>
      match skipWs rest with
      | ',' :: rest2 =>
        match parseItems fuel rest2 with
        | some (ss, rest3) => some (s :: ss, rest3)
        | none => none
      | ']' :: rest2 => some ([s], rest2)
      | _ => none

/-- Check that the document closes with `}` followed only by whitespace. -/
def finishCategoriesDoc (items : List String) (rest : List Char) :
    Option (List String) :=
  match skipWs rest with
  | '\x7d' :: r =>
    match skipWs r with
    | [] => some items
    | _ => none
  | _ => none

/-- Parse a JSON document of the shape `{"categories": [string, ...]}`,
returning the names. -/
def parseCategoriesDoc (s : String) : Option (List String) :=
  match skipWs s.data with
  | '\x7b' :: r1 =>
    match takeStringLit (skipWs r1) with
    | some (k, r2) =>
      if k = "categories" then
        match skipWs r2 with
        | ':' :: r3 =>
          match skipWs r3 with
          | '[' :: r4 =>
            match skipWs r4 with
            | ']' :: r5 => finishCategoriesDoc [] r5
            | _ =>
              match parseItems (r4.length + 1) r4 with
              | some (items, r5) => finishCategoriesDoc items r5
              | none => none
          | _ => none
        | _ => none
      else none
    | none => none
  | _ => none

/-! ## Helper lemmas -/

theorem mem_dedupFirst {x : String} {l : List String} : x ∈ dedupFirst l ↔ x ∈ l := by
  induction l with
  | nil => simp [dedupFirst]
  | cons c cs ih =>
    simp only [dedupFirst, List.mem_cons, List.mem_filter, Bool.not_eq_eq_eq_not,
      Bool.not_true, decide_eq_false_iff_not, ih]
    constructor
    · rintro (h | ⟨h, _⟩)
      · exact Or.inl h
      · exact Or.inr h
    · rintro (h | h)
      · exact Or.inl h
      · by_cases hxc : x = c
        · exact Or.inl hxc
        · exact Or.inr ⟨h, hxc⟩

theorem nodup_dedupFirst (l : List String) : (dedupFirst l).Nodup := by
  induction l with
  | nil => simp [dedupFirst]
  | cons c cs ih =>
    rw [dedupFirst, List.nodup_cons]
    refine ⟨fun hmem => ?_, List.Nodup.filter _ ih⟩
    have := (List.mem_filter.mp hmem).2
    simp at this

/-- In a table whose ids are pairwise distinct, a present id matches exactly
one row. -/
theorem countP_id_eq_one {rows : List Expense} {i : Nat}
    (hnd : (rows.map Expense.id).Nodup) (hm : i ∈ rows.map Expense.id) :
    rows.countP (fun r => decide (r.id = i)) = 1 := by
  induction rows with
  | nil => simp at hm
  | cons r rs ih =>
    rw [List.map_cons, List.nodup_cons] at hnd
    rcases List.mem_cons.mp hm with h | h
    · rw [List.countP_cons_of_pos _ _ (by simp [h])]
      have h0 : rs.countP (fun r' => decide (r'.id = i)) = 0 := by
        rw [List.countP_eq_zero]
        intro r' hr' hp
        simp only [decide_eq_true_eq] at hp
        exact hnd.1 (h ▸ hp ▸ List.mem_map_of_mem Expense.id hr')
      rw [h0]
    · have hne : ¬ (r.id = i) := fun hri => hnd.1 (hri ▸ h)
      rw [List.countP_cons_of_neg _ _ (by simp [hne])]
      exact ih hnd.2 h

theorem nodup_all_eq_length_le_one {l : List String} {a : String}
    (hnd : l.Nodup) (hall : ∀ x ∈ l, x = a) : l.length ≤ 1 := by
  match l with
  | [] => simp
  | [_] => simp
  | x :: y :: t =>
    exfalso
    have hx : x = a := hall x (by simp)
    have hy : y = a := hall y (by simp)
    rw [List.nodup_cons] at hnd
    exact hnd.1 (by simp [hx, hy])

theorem listExpensesQuery_perm (s e : String) (rows : List Expense) :
    (listExpensesQuery s e rows).Perm (rows.filter (inRange s e)) :=
  List.perm_insertionSort listOrder (rows.filter (inRange s e))

theorem mem_summarizeQuery {g : CategorySummary} {s e cat : String} {rows : List Expense} :
    g ∈ summarizeQuery s e cat rows ↔
      ∃ c ∈ dedupFirst ((summarizeRows s e cat rows).map Expense.category),
        groupFor (summarizeRows s e cat rows) c = g := by
  unfold summarizeQuery
  rw [(List.perm_insertionSort _ _).mem_iff]
  exact List.mem_map

/-- Every group of the summarize output records the exact rational sum and
count of the rows of the corresponding `list_expenses` result that carry the
group's category, and no empty group is emitted. -/
theorem summarize_group_spec {s e cat : String} {rows : List Expense} {g : CategorySummary}
    (hg : g ∈ summarizeQuery s e cat rows) :
    g.total_amount = (((listExpensesQuery s e rows).filter
        (fun r => decide (r.category = g.category))).map Expense.amount).sum
    ∧ g.count = ((listExpensesQuery s e rows).filter
        (fun r => decide (r.category = g.category))).length
    ∧ 0 < g.count := by
  obtain ⟨c, hc, hgc⟩ := mem_summarizeQuery.mp hg
  subst hgc
  have hcmem : c ∈ (summarizeRows s e cat rows).map Expense.category := mem_dedupFirst.mp hc
  have H : (summarizeRows s e cat rows).filter (fun r => decide (r.category = c))
      = (rows.filter (inRange s e)).filter (fun r => decide (r.category = c)) := by
    by_cases hcat : cat = ""
    · rw [summarizeRows, if_pos hcat]
    · obtain ⟨r, hr, hrc⟩ := List.mem_map.mp hcmem
      rw [summarizeRows, if_neg hcat] at hr
      have hrcat : r.category = cat := by
        have := (List.mem_filter.mp hr).2
        simpa using this
      have hccat : c = cat := by rw [← hrc, hrcat]
      subst hccat
      rw [summarizeRows, if_neg hcat]
      apply List.filter_eq_self.mpr
      intro a ha
      exact (List.mem_filter.mp ha).2
  have hperm : ((listExpensesQuery s e rows).filter (fun r => decide (r.category = c))).Perm
      ((rows.filter (inRange s e)).filter (fun r => decide (r.category = c))) :=
    (listExpensesQuery_perm s e rows).filter _
  refine ⟨?_, ?_, ?_⟩
  · simp only [groupFor]
    rw [H]
    exact ((hperm.map Expense.amount).sum_eq).symm
  · simp only [groupFor]
    rw [H]
    exact hperm.length_eq.symm
  · simp only [groupFor]
    obtain ⟨r, hr, hrc⟩ := List.mem_map.mp hcmem
    exact List.length_pos_of_mem (List.mem_filter.mpr ⟨hr, by simp [hrc]⟩)

/-- Supplying a non-empty category argument is the same as pre-filtering the
table to that category and summarizing with no category filter. -/
theorem summarize_prefilter_equiv (s e cat : String) (rows : List Expense) (h : cat ≠ "") :
    summarizeQuery s e cat rows
      = summarizeQuery s e "" (rows.filter (fun r => decide (r.category = cat))) := by
  have hrows : summarizeRows s e cat rows
      = summarizeRows s e "" (rows.filter (fun r => decide (r.category = cat))) := by
    rw [summarizeRows, if_neg h, summarizeRows, if_pos rfl]
    rw [List.filter_filter, List.filter_filter]
    apply List.filter_congr
    intro x _
    exact Bool.and_comm _ _
  rw [summarizeQuery, summarizeQuery, hrows]

/-- With a non-empty category argument every emitted group carries that
category, and there is at most one group. -/
theorem summarize_cat_groups {s e cat : String} {rows : List Expense} (h : cat ≠ "") :
    (∀ g ∈ summarizeQuery s e cat rows, g.category = cat)
    ∧ (summarizeQuery s e cat rows).length ≤ 1 := by
  have hcats : ∀ c ∈ dedupFirst ((summarizeRows s e cat rows).map Expense.category),
      c = cat := by
    intro c hc
    obtain ⟨r, hr, hrc⟩ := List.mem_map.mp (mem_dedupFirst.mp hc)
    rw [summarizeRows, if_neg h] at hr
    have hrcat := (List.mem_filter.mp hr).2
    simp only [decide_eq_true_eq] at hrcat
    rw [← hrc, hrcat]
  constructor
  · intro g hg
    obtain ⟨c, hc, hgc⟩ := mem_summarizeQuery.mp hg
    rw [← hgc]
    simp only [groupFor]
    exact hcats c hc
  · have hlen : (summarizeQuery s e cat rows).length
        = (dedupFirst ((summarizeRows s e cat rows).map Expense.category)).length := by
      rw [summarizeQuery, (List.perm_insertionSort _ _).length_eq, List.length_map]
    rw [hlen]
    exact nodup_all_eq_length_le_one (nodup_dedupFirst _) hcats

/-- Strict newest-first order on expense rows: strictly later date, or equal
date and strictly larger id.  A list that is `Pairwise newestFirst` is in the
documented output order of `list_expenses` and that order is unique. -/
def newestFirst (a b : Expense) : Prop :=
  strLt b.date a.date = true ∨ (a.date = b.date ∧ b.id < a.id)

theorem listExpensesQuery_pairwise {s e : String} {rows : List Expense}
    (hids : (rows.map Expense.id).Nodup) :
    (listExpensesQuery s e rows).Pairwise newestFirst := by
  have hsorted : (listExpensesQuery s e rows).Pairwise listOrder :=
    List.sorted_insertionSort listOrder (rows.filter (inRange s e))
  have hsub : ((rows.filter (inRange s e)).map Expense.id).Sublist (rows.map Expense.id) :=
    (List.filter_sublist rows).map Expense.id
  have hnodf : ((rows.filter (inRange s e)).map Expense.id).Nodup :=
    List.Nodup.sublist hsub hids
  have hpermmap : ((listExpensesQuery s e rows).map Expense.id).Perm
      ((rows.filter (inRange s e)).map Expense.id) :=
    (listExpensesQuery_perm s e rows).map Expense.id
  have hnod : ((listExpensesQuery s e rows).map Expense.id).Nodup :=
    (hpermmap.nodup_iff).mpr hnodf
  have hne : (listExpensesQuery s e rows).Pairwise (fun a b => a.id ≠ b.id) :=
    List.pairwise_map.mp hnod
  refine (hsorted.and hne).imp ?_
  rintro a b ⟨hord, hneq⟩
  unfold listOrder at hord
  rcases hord with h | ⟨hd, hle⟩
  · exact Or.inl h
  · exact Or.inr ⟨hd, lt_of_le_of_ne hle (fun hba => hneq hba.symm)⟩

theorem listExpensesQuery_unique {s e : String} {rows : List Expense} {l : List Expense}
    (hperm : l.Perm (listExpensesQuery s e rows))
    (hpair : l.Pairwise newestFirst)
    (hout : (listExpensesQuery s e rows).Pairwise newestFirst) :
    l = listExpensesQuery s e rows := by
  have hanti : IsAntisymm Expense (fun a b => newestFirst a b ∨ a = b) := by
    constructor
    intro a b hab hba
    rcases hab with hab | hab
    · rcases hba with hba | hba
      · exfalso
        unfold newestFirst at hab hba
        rcases hab with h1 | ⟨hd1, hi1⟩ <;> rcases hba with h2 | ⟨hd2, hi2⟩
        · rw [strLt_asymm h1] at h2
          exact Bool.false_ne_true h2
        · rw [hd2, strLt_irrefl] at h1
          exact Bool.false_ne_true h1
        · rw [hd1, strLt_irrefl] at h2
          exact Bool.false_ne_true h2
        · exact lt_asymm hi1 hi2
      · exact hba.symm
    · exact hab
  exact @List.eq_of_perm_of_sorted _ _ hanti _ _ hperm (hpair.imp Or.inl) (hout.imp Or.inl)

/-! ## Witness fixtures -/

/-- An empty table whose next AUTOINCREMENT id is 1 (the state `init_db`
leaves behind on a fresh database). -/
def wEmptyDB : DB := ⟨1, []⟩

/-- A concrete stored row used by witnesses. -/
def wExpense1 : Expense := ⟨1, "2024-01-05", 12, "Food & Dining", "", ""⟩

/-- A second concrete stored row used by witnesses. -/
def wExpense2 : Expense := ⟨2, "2024-01-10", 40, "Transportation", "", ""⟩

/-- A concrete two-row table used by witnesses. -/
def wRows : List Expense := [wExpense1, wExpense2]

/-! ## The claims -/

/-- Claim C1: a record inserted by `add_expense` is returned by any
`list_expenses` call whose date range contains its date, exactly once
(counted by its id, which equals the id `add_expense` returned), and with
date, amount, category, subcategory and note unchanged. -/
theorem C1_add_then_list_roundtrip (db : DB) (d : String) (a : Rat) (c sc nt s e : String)
    (hfresh : ∀ r ∈ db.rows, r.id < db.nextId)
    (hs : strLe s d = true) (he : strLe d e = true) :
    (add_expense db none d a c sc nt).1 = AddResult.success db.nextId "Expense added successfully"
    ∧ (listExpensesQuery s e (add_expense db none d a c sc nt).2.rows).countP
        (fun r => decide (r.id = db.nextId)) = 1
    ∧ (⟨db.nextId, d, a, c, sc, nt⟩ : Expense) ∈
        listExpensesQuery s e (add_expense db none d a c sc nt).2.rows
    ∧ ∀ r ∈ listExpensesQuery s e (add_expense db none d a c sc nt).2.rows,
        r.id = db.nextId → r = ⟨db.nextId, d, a, c, sc, nt⟩ := by
  have hrows : (add_expense db none d a c sc nt).2.rows
      = db.rows ++ [⟨db.nextId, d, a, c, sc, nt⟩] := rfl
  have hin : inRange s e (⟨db.nextId, d, a, c, sc, nt⟩ : Expense) = true := by
    simp [inRange, hs, he]
  have hfilter : (db.rows ++ [(⟨db.nextId, d, a, c, sc, nt⟩ : Expense)]).filter (inRange s e)
      = db.rows.filter (inRange s e) ++ [⟨db.nextId, d, a, c, sc, nt⟩] := by
    rw [List.filter_append]
    congr 1
    rw [List.filter_cons_of_pos hin, List.filter_nil]
  have hperm := listExpensesQuery_perm s e
    (db.rows ++ [(⟨db.nextId, d, a, c, sc, nt⟩ : Expense)])
  refine ⟨rfl, ?_, ?_, ?_⟩
  · rw [hrows, hperm.countP_eq, hfilter, List.countP_append]
    have h0 : (db.rows.filter (inRange s e)).countP
        (fun r => decide (r.id = db.nextId)) = 0 := by
      rw [List.countP_eq_zero]
      intro r hr hp
      simp only [decide_eq_true_eq] at hp
      have := hfresh r (List.mem_filter.mp hr).1
      omega
    rw [h0, List.countP_singleton]
    simp
  · rw [hrows, hperm.mem_iff, hfilter]
    exact List.mem_append_right _ (by simp)
  · intro r hr hid
    rw [hrows] at hr
    have hr3 : r ∈ db.rows ++ [(⟨db.nextId, d, a, c, sc, nt⟩ : Expense)] :=
      (List.mem_filter.mp (hperm.mem_iff.mp hr)).1
    rcases List.mem_append.mp hr3 with h | h
    · exact absurd hid (by have := hfresh r h; omega)
    · simpa using h

/-- Witness for C1 at a concrete input: inserting into the fresh empty table
and listing January 2024 finds the new id exactly once. -/
theorem C1_add_then_list_roundtrip_witness :
    (listExpensesQuery "2024-01-01" "2024-01-31"
        (add_expense wEmptyDB none "2024-01-05" 12 "Food & Dining" "" "").2.rows).countP
      (fun r => decide (r.id = wEmptyDB.nextId)) = 1 :=
  (C1_add_then_list_roundtrip wEmptyDB "2024-01-05" 12 "Food & Dining" "" ""
    "2024-01-01" "2024-01-31" (by decide) (by decide) (by decide)).2.1

/-- Claim C3: `delete_expense` removes the row with the given id and reports
the removed-row count: 1 when the id is present (ids are unique), 0 when
absent with the table untouched; repeating the delete reports 0 and leaves
the table unchanged (idempotence). -/
theorem C3_delete_removes_and_is_idempotent (rows : List Expense) (i : Nat)
    (hnd : (rows.map Expense.id).Nodup) :
    (i ∈ rows.map Expense.id → (deleteQuery i rows).1 = 1)
    ∧ (i ∉ rows.map Expense.id → (deleteQuery i rows).1 = 0 ∧ (deleteQuery i rows).2 = rows)
    ∧ (∀ r ∈ rows, r.id ≠ i → r ∈ (deleteQuery i rows).2)
    ∧ (∀ r ∈ (deleteQuery i rows).2, r.id ≠ i)
    ∧ deleteQuery i (deleteQuery i rows).2 = (0, (deleteQuery i rows).2) := by
  have hpost : ∀ r ∈ (deleteQuery i rows).2, r.id ≠ i := by
    intro r hr
    have := (List.mem_filter.mp hr).2
    simpa using this
  refine ⟨fun hm => countP_id_eq_one hnd hm, fun hab => ⟨?_, ?_⟩, fun r hr hne => ?_, hpost, ?_⟩
  · rw [show (deleteQuery i rows).1 = rows.countP (fun r => decide (r.id = i)) from rfl,
      List.countP_eq_zero]
    intro r hr hp
    simp only [decide_eq_true_eq] at hp
    exact hab (hp ▸ List.mem_map_of_mem Expense.id hr)
  · show rows.filter (fun r => !(decide (r.id = i))) = rows
    apply List.filter_eq_self.mpr
    intro r hr
    have : r.id ≠ i := fun hp => hab (hp ▸ List.mem_map_of_mem Expense.id hr)
    simpa using this
  · exact List.mem_filter.mpr ⟨hr, by simpa using hne⟩
  · have h1 : ((deleteQuery i rows).2).countP (fun r => decide (r.id = i)) = 0 := by
      rw [List.countP_eq_zero]
      intro r hr hp
      simp only [decide_eq_true_eq] at hp
      exact hpost r hr hp
    have h2 : ((deleteQuery i rows).2).filter (fun r => !(decide (r.id = i)))
        = (deleteQuery i rows).2 := by
      apply List.filter_eq_self.mpr
      intro r hr
      simpa using hpost r hr
    show (_, _) = (_, _)
    rw [h1, h2]

/-- Witness for C3 at a concrete input: deleting id 1 from the two-row table
removes exactly one row. -/
theorem C3_delete_removes_and_is_idempotent_witness :
    (deleteQuery 1 wRows).1 = 1 :=
  (C3_delete_removes_and_is_idempotent wRows 1 (by decide)).1 (by decide)

/-- Claim C4: `update_expense` replaces every mutable field of the row with
the given id (count 1 when present, given unique ids), keeps every id — in
particular the target row's id — and every other row unchanged, and on an
absent id reports count 0 leaving the table unchanged. -/
theorem C4_update_replaces_fields (rows : List Expense) (i : Nat) (d : String) (a : Rat)
    (c sc nt : String) (hnd : (rows.map Expense.id).Nodup) :
    (i ∈ rows.map Expense.id → (updateQuery i d a c sc nt rows).1 = 1)
    ∧ (i ∉ rows.map Expense.id →
        (updateQuery i d a c sc nt rows).1 = 0 ∧ (updateQuery i d a c sc nt rows).2 = rows)
    ∧ (updateQuery i d a c sc nt rows).2.map Expense.id = rows.map Expense.id
    ∧ (∀ r ∈ rows, r.id ≠ i → r ∈ (updateQuery i d a c sc nt rows).2)
    ∧ (∀ r ∈ (updateQuery i d a c sc nt rows).2,
        r.id = i → r = ⟨i, d, a, c, sc, nt⟩)
    ∧ (i ∈ rows.map Expense.id →
        (⟨i, d, a, c, sc, nt⟩ : Expense) ∈ (updateQuery i d a c sc nt rows).2) := by
  refine ⟨fun hm => countP_id_eq_one hnd hm, fun hab => ⟨?_, ?_⟩, ?_, fun r hr hne => ?_,
    fun r hr hid => ?_, fun hm => ?_⟩
  · rw [show (updateQuery i d a c sc nt rows).1
        = rows.countP (fun r => decide (r.id = i)) from rfl, List.countP_eq_zero]
    intro r hr hp
    simp only [decide_eq_true_eq] at hp
    exact hab (hp ▸ List.mem_map_of_mem Expense.id hr)
  · show rows.map _ = rows
    rw [show rows.map _ = rows.map id from List.map_congr_left ?_, List.map_id]
    intro r hr
    have hne : ¬ (r.id = i) := fun hp => hab (hp ▸ List.mem_map_of_mem Expense.id hr)
    simp [hne]
  · show (rows.map _).map Expense.id = rows.map Expense.id
    rw [List.map_map]
    apply List.map_congr_left
    intro r _
    by_cases h : r.id = i <;> simp [Function.comp, h]
  · show r ∈ rows.map _
    have : (if r.id = i then
        ({ id := r.id, date := d, amount := a, category := c, subcategory := sc,
           note := nt } : Expense) else r) = r := if_neg hne
    exact this ▸ List.mem_map_of_mem _ hr
  · obtain ⟨r0, hr0, hfr⟩ := List.mem_map.mp hr
    by_cases h : r0.id = i
    · rw [← hfr, if_pos h, h]
    · rw [← hfr, if_neg h] at hid ⊢
      exact absurd hid h
  · obtain ⟨r0, hr0, hid0⟩ := List.mem_map.mp hm
    have : (if r0.id = i then
        ({ id := r0.id, date := d, amount := a, category := c, subcategory := sc,
           note := nt } : Expense) else r0) = ⟨i, d, a, c, sc, nt⟩ := by
      rw [if_pos hid0, hid0]
    exact this ▸ List.mem_map_of_mem _ hr0

/-- Witness for C4 at a concrete input: updating id 2 of the two-row table
touches exactly one row. -/
theorem C4_update_replaces_fields_witness :
    (updateQuery 2 "2024-02-01" 41 "Travel" "" "" wRows).1 = 1 :=
  (C4_update_replaces_fields wRows 2 "2024-02-01" 41 "Travel" "" "" (by decide)).1 (by decide)

/-- Claim C2: every group `summarize_expenses_by_category` returns totals and
counts exactly the records the equivalent `list_expenses` call over the same
range returns for that group's category; a non-empty category argument is
equivalent to pre-filtering the table to that category before grouping; and
no group is emitted for a category with zero matching rows. -/
theorem C2_summarize_matches_list (s e cat : String) (rows : List Expense) :
    (∀ g ∈ summarizeQuery s e cat rows,
      g.total_amount = (((listExpensesQuery s e rows).filter
          (fun r => decide (r.category = g.category))).map Expense.amount).sum
      ∧ g.count = ((listExpensesQuery s e rows).filter
          (fun r => decide (r.category = g.category))).length
      ∧ 0 < g.count)
    ∧ (cat ≠ "" → summarizeQuery s e cat rows
        = summarizeQuery s e "" (rows.filter (fun r => decide (r.category = cat)))) :=
  ⟨fun _ hg => summarize_group_spec hg, summarize_prefilter_equiv s e cat rows⟩

/-- Witness for C2 at a concrete input: summarizing January 2024 with the
category filter "Food & Dining" equals summarizing the pre-filtered table. -/
theorem C2_summarize_matches_list_witness :
    summarizeQuery "2024-01-01" "2024-01-31" "Food & Dining" wRows
      = summarizeQuery "2024-01-01" "2024-01-31" ""
          (wRows.filter (fun r => decide (r.category = "Food & Dining"))) :=
  (C2_summarize_matches_list "2024-01-01" "2024-01-31" "Food & Dining" wRows).2 (by decide)

/-- Claim C5: the date-range filter of `list_expenses` is inclusive at both
endpoints under lexicographic comparison of the stored date strings: a stored
record dated exactly `start_date` or exactly `end_date` is returned, and a
record dated strictly outside the closed interval is not. -/
theorem C5_range_endpoints_inclusive (s e : String) (rows : List Expense) (r : Expense)
    (hr : r ∈ rows) :
    (strLe s e = true → r.date = s ∨ r.date = e → r ∈ listExpensesQuery s e rows)
    ∧ ((strLt r.date s = true ∨ strLt e r.date = true) → r ∉ listExpensesQuery s e rows) := by
  constructor
  · intro hse hd
    rw [(listExpensesQuery_perm s e rows).mem_iff]
    refine List.mem_filter.mpr ⟨hr, ?_⟩
    rcases hd with h | h
    · simp [inRange, h, strLe_refl, hse]
    · simp [inRange, h, strLe_refl, hse]
  · intro hout hmem
    have hp := (List.mem_filter.mp ((listExpensesQuery_perm s e rows).mem_iff.mp hmem)).2
    rw [inRange, Bool.and_eq_true] at hp
    rcases hout with h | h
    · have hfalse := strLe_iff_not_strLt.mp hp.1
      rw [hfalse] at h
      exact Bool.false_ne_true h
    · have hfalse := strLe_iff_not_strLt.mp hp.2
      rw [hfalse] at h
      exact Bool.false_ne_true h

/-- Witness for C5 at a concrete input: a record dated exactly on
`start_date` is returned. -/
theorem C5_range_endpoints_inclusive_witness :
    wExpense1 ∈ listExpensesQuery "2024-01-05" "2024-01-31" wRows :=
  (C5_range_endpoints_inclusive "2024-01-05" "2024-01-31" wRows wExpense1
    (by decide)).1 (by decide) (Or.inl (by decide))

/-- Claim C6: `list_expenses` returns the matching rows in the single fixed
newest-first order — strictly descending by date with ties broken by
strictly descending id — and that order is uniquely determined: any
permutation of the result in the same order is the result itself, so two
calls over the same table state and range return identical sequences. -/
theorem C6_list_stable_newest_first (s e : String) (rows : List Expense)
    (hids : (rows.map Expense.id).Nodup) :
    (listExpensesQuery s e rows).Perm (rows.filter (inRange s e))
    ∧ (listExpensesQuery s e rows).Pairwise newestFirst
    ∧ ∀ l, l.Perm (listExpensesQuery s e rows) → l.Pairwise newestFirst →
        l = listExpensesQuery s e rows :=
  ⟨listExpensesQuery_perm s e rows, listExpensesQuery_pairwise hids,
   fun _ hp hs => listExpensesQuery_unique hp hs (listExpensesQuery_pairwise hids)⟩

/-- Witness for C6 at a concrete input: the January 2024 listing of the
two-row table is strictly newest-first. -/
theorem C6_list_stable_newest_first_witness :
    (listExpensesQuery "2024-01-01" "2024-01-31" wRows).Pairwise newestFirst :=
  (C6_list_stable_newest_first "2024-01-01" "2024-01-31" wRows (by decide)).2.1

/-- Claim C10: with a non-empty category argument,
`summarize_expenses_by_category` returns at most one group, and any group it
returns carries exactly the supplied category. -/
theorem C10_single_category_group (s e cat : String) (rows : List Expense) (h : cat ≠ "") :
    (summarizeQuery s e cat rows).length ≤ 1
    ∧ ∀ g ∈ summarizeQuery s e cat rows, g.category = cat :=
  ⟨(summarize_cat_groups h).2, (summarize_cat_groups h).1⟩

/-- Witness for C10 at a concrete input: filtering on "Food & Dining" yields
at most one group. -/
theorem C10_single_category_group_witness :
    (summarizeQuery "2024-01-01" "2024-01-31" "Food & Dining" wRows).length ≤ 1 :=
  (C10_single_category_group "2024-01-01" "2024-01-31" "Food & Dining" wRows (by decide)).1

/-- A message built by prefixing a nonempty template is never empty. -/
theorem prefixed_message_ne_empty {p : String} (m : String) (hp : 0 < p.length) :
    p ++ m ≠ "" := by
  intro h
  have hlen := congrArg String.length h
  rw [String.length_append] at hlen
  have h0 : ("" : String).length = 0 := rfl
  rw [h0] at hlen
  omega

theorem addErrorMessage_ne_empty (m : String) : addErrorMessage m ≠ "" := by
  rw [addErrorMessage]
  by_cases h : isReadonlyMsg m = true
  · rw [if_pos h]
    decide
  · rw [if_neg h]
    exact prefixed_message_ne_empty m (by decide)

/-- Claim C7: while a handler is running, any storage-layer failure — here
injected as the exception text `m` — is caught at the handler boundary of
every one of the five operations and turned into the structured error
dictionary (`status` "error" plus a nonempty human-readable message), with
no change to the table; since the handlers are total functions of the
injected exception, no exception escapes as an unhandled fault. -/
theorem C7_failures_become_error_results (db : DB) (m : String) (d : String) (a : Rat)
    (c sc nt s e cat : String) (i : Nat) :
    ((add_expense db (some m) d a c sc nt).1 = AddResult.error (addErrorMessage m)
      ∧ (add_expense db (some m) d a c sc nt).2 = db
      ∧ addErrorMessage m ≠ "")
    ∧ (list_expenses db (some m) s e = ListResult.error (listGenericMessage m)
      ∧ listGenericMessage m ≠ "")
    ∧ (summarize_expenses_by_category db (some m) s e cat
        = SummarizeResult.error (summarizeGenericMessage m)
      ∧ summarizeGenericMessage m ≠ "")
    ∧ ((delete_expense db (some m) i).1 = DeleteResult.error (deleteGenericMessage m)
      ∧ (delete_expense db (some m) i).2 = db
      ∧ deleteGenericMessage m ≠ "")
    ∧ ((update_expense db (some m) i d a c sc nt).1
        = UpdateResult.error (updateGenericMessage m)
      ∧ (update_expense db (some m) i d a c sc nt).2 = db
      ∧ updateGenericMessage m ≠ "") :=
  ⟨⟨rfl, rfl, addErrorMessage_ne_empty m⟩,
   ⟨rfl, prefixed_message_ne_empty m (by decide)⟩,
   ⟨rfl, prefixed_message_ne_empty m (by decide)⟩,
   ⟨rfl, rfl, prefixed_message_ne_empty m (by decide)⟩,
   ⟨rfl, rfl, prefixed_message_ne_empty m (by decide)⟩⟩

/-- Claim C8 as stated: on a read-only/permission storage failure, every one
of the five operations returns an error result different from the one its
generic except-branch template would produce for that same failure — i.e.
the read-only condition is surfaced distinctly, not as the mere generic
failure message. -/
def C8DistinguishabilityClaim : Prop :=
  ∀ (db : DB) (m d : String) (a : Rat) (c sc nt s e cat : String) (i : Nat),
    isReadonlyMsg m = true →
      (add_expense db (some m) d a c sc nt).1 ≠ AddResult.error (addGenericMessage m)
      ∧ list_expenses db (some m) s e ≠ ListResult.error (listGenericMessage m)
      ∧ summarize_expenses_by_category db (some m) s e cat
          ≠ SummarizeResult.error (summarizeGenericMessage m)
      ∧ (delete_expense db (some m) i).1 ≠ DeleteResult.error (deleteGenericMessage m)
      ∧ (update_expense db (some m) i d a c sc nt).1
          ≠ UpdateResult.error (updateGenericMessage m)

/-- Counterexample to C8: for the read-only failure text
"attempt to write a readonly database", `update_expense` returns exactly its
generic template result `Error updating expense: ...` — no distinct
read-only handling exists outside `add_expense`. -/
theorem C8_counterexample : ¬ C8DistinguishabilityClaim := by
  intro h
  exact (h wEmptyDB "attempt to write a readonly database" "" 0 "" "" "" "" "" "" 0
    (by decide)).2.2.2.2 rfl

/-- Claim C8 amended: only `add_expense` distinguishes a read-only failure,
answering with the dedicated actionable message (provably different from its
generic template output); the other four operations wrap every failure,
read-only included, in their single generic message template. -/
theorem C8_amended_only_add_distinguishes (db : DB) (m d : String) (a : Rat)
    (c sc nt s e cat : String) (i : Nat) :
    (isReadonlyMsg m = true →
      (add_expense db (some m) d a c sc nt).1 = AddResult.error readonlyMessage
      ∧ readonlyMessage ≠ addGenericMessage m)
    ∧ list_expenses db (some m) s e = ListResult.error (listGenericMessage m)
    ∧ summarize_expenses_by_category db (some m) s e cat
        = SummarizeResult.error (summarizeGenericMessage m)
    ∧ (delete_expense db (some m) i).1 = DeleteResult.error (deleteGenericMessage m)
    ∧ (update_expense db (some m) i d a c sc nt).1
        = UpdateResult.error (updateGenericMessage m) := by
  refine ⟨fun hro => ⟨?_, ?_⟩, rfl, rfl, rfl, rfl⟩
  · show AddResult.error (addErrorMessage m) = AddResult.error readonlyMessage
    rw [addErrorMessage, if_pos hro]
  · intro hcontra
    have hp : ("Database error: ").data <+: readonlyMessage.data :=
      ⟨m.data, congrArg String.data hcontra.symm⟩
    exact absurd hp (by decide)

/-- Witness for the amended C8 at a concrete input: on the readonly failure
text, `add_expense` answers with the dedicated message and `update_expense`
with its generic template. -/
theorem C8_amended_only_add_distinguishes_witness :
    (add_expense wEmptyDB (some "attempt to write a readonly database")
        "2024-01-05" 12 "Food & Dining" "" "").1 = AddResult.error readonlyMessage
    ∧ (update_expense wEmptyDB (some "attempt to write a readonly database")
        1 "2024-01-05" 12 "Food & Dining" "" "").1
      = UpdateResult.error
          (updateGenericMessage "attempt to write a readonly database") :=
  ⟨((C8_amended_only_add_distinguishes wEmptyDB "attempt to write a readonly database"
      "2024-01-05" 12 "Food & Dining" "" "" "" "" "" 1).1 (by decide)).1,
   (C8_amended_only_add_distinguishes wEmptyDB "attempt to write a readonly database"
      "2024-01-05" 12 "Food & Dining" "" "" "" "" "" 1).2.2.2.2⟩

set_option maxRecDepth 8192 in
/-- Claim C9: `get_categories` is a function of the backing file's state at
request time (a fresh read every call: with the file present it returns
exactly the current content), and with the file absent it returns the fixed
built-in ten-name default list serialized as a JSON document carrying the
names under the key "categories". -/
theorem C9_categories_default_document :
    (∀ content, get_categories (some content) = content)
    ∧ get_categories none = renderCategoriesJson default_categories
    ∧ parseCategoriesDoc (get_categories none) = some default_categories
    ∧ default_categories.length = 10 :=
  ⟨fun _ => rfl, rfl, by decide, by decide⟩

end ExpenseTracker
